import Mathlib

/-!
A shallow embedding of the LSAT authentication core (`auth/authenticator.go`)
of the Lightn repository.

Modelling conventions:
* HTTP headers (`http.Header`) are modelled as total functions from field
  name to field value, with the empty string meaning "field absent"
  (`header.Get` returns `""` for an absent field).  Field names are taken
  to already be in their canonical form, so `Get`/`Set` key
  canonicalisation is the identity in this model.
* Byte slices are `List Nat` whose elements are intended to be `< 256`.
* The external collaborators (`macaroon.Macaroon`'s binary codec, the
  caveat-extraction helper `macaroons.ExtractCaveat` with the fixed
  condition `macaroons.CondPreimage`, and the `Minter` interface) are not
  part of the visible core; they are parameters (`MacaroonOps`, `Minter`) of the
  embedded operations, so all theorems quantify over their behaviour.
* Go functions returning `(value, error)` become `Except`/`Option`
  producers; `SetHeader`, which mutates its header argument in place and
  returns only an `error`, becomes a pair of the (possibly `none`) error
  and the resulting header.
* Logging calls are side effects outside the model and are dropped.
-/

/-- `http.Header`: field name to field value, `""` meaning absent. -/
def Header := String → String

/-- `http.Header.Get`. -/
def Header.get (header : Header) (key : String) : String := header key

/-- `http.Header.Set`: replaces the value stored under `key`. -/
def Header.set (header : Header) (key value : String) : Header :=
  fun k => if k = key then value else header k

/-- A header with no fields set. -/
def Header.empty : Header := fun _ => ""

/-- `HeaderAuthorization` constant from the source. -/
def HeaderAuthorization : String := "Authorization"

/-- `HeaderMacaroonMD` constant from the source. -/
def HeaderMacaroonMD : String := "Grpc-Metadata-Macaroon"

/-- `HeaderMacaroon` constant from the source. -/
def HeaderMacaroon : String := "Macaroon"

/-- The header field written by `FreshChallengeHeader`. -/
def HeaderWWWAuthenticate : String := "WWW-Authenticate"

/-! ## Hex encoding / decoding (`encoding/hex`, `lntypes`) -/

/-- Value of a hex digit, accepting both cases like Go's `hex.DecodeString`. -/
def hexDigit (c : Char) : Option Nat :=
  if '0' ≤ c ∧ c ≤ '9' then some (c.toNat - 48)
  else if 'a' ≤ c ∧ c ≤ 'f' then some (c.toNat - 87)
  else if 'A' ≤ c ∧ c ≤ 'F' then some (c.toNat - 55)
  else none

/-- `hex.DecodeString`: fails on odd length or any non-hex character. -/
def hexDecodeChars : List Char → Option (List Nat)
  | [] => some []
  | [_] => none
  | a :: b :: rest =>
    match hexDigit a, hexDigit b, hexDecodeChars rest with
    | some va, some vb, some tail => some ((va * 16 + vb) :: tail)
    | _, _, _ => none

/-- Lower-case hex digit character for a value `< 16` (Go's `hex` tables). -/
def hexDigitChar (n : Nat) : Char :=
  if n < 10 then Char.ofNat (48 + n) else Char.ofNat (87 + n)

/-- `hex.EncodeToString` on a byte list: each byte becomes `b >> 4`, `b & 15`. -/
def hexEncodeChars : List Nat → List Char
  | [] => []
  | b :: rest => hexDigitChar (b / 16) :: hexDigitChar (b % 16) :: hexEncodeChars rest

/-- `hex.EncodeToString` producing a `String` (`lntypes.Preimage.String`). -/
def hexEncodeStr (bs : List Nat) : String := String.mk (hexEncodeChars bs)

/-! ## Base64 (`encoding/base64`, `StdEncoding`) -/

/-- The standard base64 alphabet, indexed by a 6-bit value. -/
def b64Char (n : Nat) : Char :=
  if n < 26 then Char.ofNat (65 + n)
  else if n < 52 then Char.ofNat (97 + (n - 26))
  else if n < 62 then Char.ofNat (48 + (n - 52))
  else if n = 62 then '+'
  else '/'

/-- Inverse of the standard base64 alphabet. -/
def b64Val (c : Char) : Option Nat :=
  if 'A' ≤ c ∧ c ≤ 'Z' then some (c.toNat - 65)
  else if 'a' ≤ c ∧ c ≤ 'z' then some (c.toNat - 97 + 26)
  else if '0' ≤ c ∧ c ≤ '9' then some (c.toNat - 48 + 52)
  else if c = '+' then some 62
  else if c = '/' then some 63
  else none

/-- `base64.StdEncoding.EncodeToString`: 3-byte groups to 4 characters,
with `=` padding for a 1- or 2-byte final group. -/
def base64EncodeChars : List Nat → List Char
  | [] => []
  | [a] => [b64Char (a / 4), b64Char (a % 4 * 16), '=', '=']
  | [a, b] => [b64Char (a / 4), b64Char (a % 4 * 16 + b / 16), b64Char (b % 16 * 4), '=']
  | a :: b :: c :: rest =>
    b64Char (a / 4) :: b64Char (a % 4 * 16 + b / 16) ::
      b64Char (b % 16 * 4 + c / 64) :: b64Char (c % 64) :: base64EncodeChars rest

/-- `base64.StdEncoding.EncodeToString` producing a `String`. -/
def base64EncodeStr (bs : List Nat) : String := String.mk (base64EncodeChars bs)

/-- `base64.StdEncoding.Decode` after newline filtering: 4-character quanta,
padding only in the final quantum, leftover bits of a padded quantum
ignored (Go's non-strict decoding). -/
def b64DecodeChars : List Char → Option (List Nat)
  | [] => some []
  | a :: b :: c :: d :: rest =>
    match b64Val a with
    | none => none
    | some va =>
      match b64Val b with
      | none => none
      | some vb =>
        if c = '=' ∧ d = '=' ∧ rest = [] then some [va * 4 + vb / 16]
        else
          match b64Val c with
          | none => none
          | some vc =>
            if d = '=' ∧ rest = [] then some [va * 4 + vb / 16, vb % 16 * 16 + vc / 4]
            else
              match b64Val d with
              | none => none
              | some vd =>
                match b64DecodeChars rest with
                | none => none
                | some tail =>
                  some ((va * 4 + vb / 16) :: (vb % 16 * 16 + vc / 4) ::
                    (vc % 4 * 64 + vd) :: tail)
  | _ => none

/-- `base64.StdEncoding.DecodeString`: Go's base64 decoder skips `\r` and
`\n` anywhere in the input before quantum processing. -/
def base64DecodeStr (s : String) : Option (List Nat) :=
  b64DecodeChars (s.data.filter (fun c => (c != '\n') && (c != '\r')))

/-! ## The authorization-header regex

`authRegex = regexp.MustCompile("LSAT (.*?):([a-f0-9]{64})")` — note the
pattern is NOT anchored: `MatchString`/`FindStringSubmatch` search for the
leftmost occurrence anywhere in the header value, with leftmost-first
(lazy `.*?`) submatch semantics, and `.` not matching a newline. -/

/-- `[a-f0-9]` character class of `authRegex`. -/
def isLowerHex (c : Char) : Bool :=
  ('0' ≤ c && c ≤ '9') || ('a' ≤ c && c ≤ 'f')

/-- Try to read `:` followed by exactly 64 `[a-f0-9]` characters at the head
of the list, returning those 64 characters (capture group 2). -/
def readColonHex64 : List Char → Option (List Char)
  | ':' :: rest =>
    if (rest.take 64).length = 64 ∧ (rest.take 64).all isLowerHex then
      some (rest.take 64)
    else none
  | _ => none

/-- Lazy search for the `:([a-f0-9]{64})` tail: at each position first try
the colon-and-hex suffix, otherwise let `.*?` consume one more non-newline
character.  Returns (capture group 1, capture group 2). -/
def findLazy : List Char → Option (List Char × List Char)
  | [] => none
  | c :: rest =>
    match readColonHex64 (c :: rest) with
    | some h => some ([], h)
    | none =>
      if c = '\n' then none
      else
        match findLazy rest with
        | some (g1, h) => some (c :: g1, h)
        | none => none

/-- Try to match `authRegex` with the match starting exactly here. -/
def tryMatchAt (l : List Char) : Option (List Char × List Char) :=
  match l with
  | 'L' :: 'S' :: 'A' :: 'T' :: ' ' :: after => findLazy after
  | _ => none

/-- Leftmost match of `authRegex` in the character list: the combined
semantics of `authRegex.MatchString` (`isSome`) and
`authRegex.FindStringSubmatch` (the two capture groups).  The source's
`len(matches) != 3` guard can never fire (the pattern has exactly two
groups), so it has no counterpart here. -/
def authRegexFindChars : List Char → Option (List Char × List Char)
  | [] => none
  | c :: rest =>
    match tryMatchAt (c :: rest) with
    | some r => some r
    | none => authRegexFindChars rest

/-! ## Preimages (`lntypes`) -/

/-- `lntypes.Preimage`: a 32-byte value (`[32]byte`).  The length and byte
bounds are stated as hypotheses where a theorem needs them. -/
structure Preimage where
  bytes : List Nat
deriving DecidableEq

/-- `lntypes.MakePreimageFromStr`: hex-decode, then require exactly
32 bytes (`lntypes.MakePreimage`). -/
def makePreimageFromStr (s : String) : Option Preimage :=
  match hexDecodeChars s.data with
  | none => none
  | some bs => if bs.length = 32 then some (Preimage.mk bs) else none

/-! ## External collaborators -/

/-- The macaroon codec and caveat-extraction collaborators: `mac.UnmarshalBinary`,
`mac.MarshalBinary` and `macaroons.ExtractCaveat(mac, macaroons.CondPreimage)`.
`Mac` is the opaque macaroon type.  `marshalBinary` returning `Except`
reflects `MarshalBinary`'s `([]byte, error)` result (on error the byte
slice is `nil`, i.e. `[]`). -/
structure MacaroonOps (Mac : Type) where
  unmarshalBinary : List Nat → Option Mac
  marshalBinary : Mac → Except String (List Nat)
  extractCaveat : Mac → Option String

/-- `mint.VerificationParams`. -/
structure VerificationParams (Mac : Type) where
  macaroon : Mac
  preimage : Preimage
  targetService : String

/-- `lsat.Service`. -/
structure Service where
  name : String
  tier : Nat
deriving DecidableEq

/-- `lsat.BaseTier` (the lowest tier, iota value 0). -/
def BaseTier : Nat := 0

/-- The external `Minter` interface: `VerifyLSAT` returns `none` for a nil
error and `some msg` for a non-nil error; `MintLSAT` returns a macaroon and
a payment request, or an error. -/
structure Minter (Mac : Type) where
  verifyLSAT : VerificationParams Mac → Option String
  mintLSAT : Service → Except String (Mac × String)

/-! ## The token codec and authenticator -/

/-- The distinct failure stages of `FromHeader`, one per `fmt.Errorf` site
(the two `unable to unmarshal macaroon` sites share a constructor, as do
the two `hex decode of preimage failed` sites). -/
inductive DecodeErr
  | invalidAuthFormat
  | base64DecodeFailed
  | unmarshalFailed
  | preimageHexFailed
  | macaroonHexFailed
  | missingCaveat
  | noAuthHeader
deriving DecidableEq

/-- The shared tail of `FromHeader` for header layouts 2 and 3 (the code
after the `switch`): hex-decode the field into macaroon bytes, unmarshal,
extract the preimage caveat, hex-decode its value into a preimage. -/
def decodeMacaroonOnly {Mac : Type} (E : MacaroonOps Mac) (authHeader : String) :
    Except DecodeErr (Mac × Preimage) :=
  match hexDecodeChars authHeader.data with
  | none => .error .macaroonHexFailed
  | some macBytes =>
    match E.unmarshalBinary macBytes with
    | none => .error .unmarshalFailed
    | some mac =>
      match E.extractCaveat mac with
      | none => .error .missingCaveat
      | some preimageHex =>
        match makePreimageFromStr preimageHex with
        | none => .error .preimageHexFailed
        | some preimage => .ok (mac, preimage)

/-- `FromHeader`: extract authentication information from the HTTP headers,
trying `Authorization` (combined `LSAT <macBase64>:<preimageHex>` value),
then `Grpc-Metadata-Macaroon`, then `Macaroon` (hex macaroon only). -/
def FromHeader {Mac : Type} (E : MacaroonOps Mac) (header : Header) :
    Except DecodeErr (Mac × Preimage) :=
  if header.get HeaderAuthorization ≠ "" then
    let authHeader := header.get HeaderAuthorization
    match authRegexFindChars authHeader.data with
    | none => .error .invalidAuthFormat
    | some (macBase64, preimageHex) =>
      match base64DecodeStr (String.mk macBase64) with
      | none => .error .base64DecodeFailed
      | some macBytes =>
        match E.unmarshalBinary macBytes with
        | none => .error .unmarshalFailed
        | some mac =>
          match makePreimageFromStr (String.mk preimageHex) with
          | none => .error .preimageHexFailed
          | some preimage => .ok (mac, preimage)
  else if header.get HeaderMacaroonMD ≠ "" then
    decodeMacaroonOnly E (header.get HeaderMacaroonMD)
  else if header.get HeaderMacaroon ≠ "" then
    decodeMacaroonOnly E (header.get HeaderMacaroon)
  else
    .error .noAuthHeader

/-- `LsatAuthenticator.Accept`: decode via `FromHeader`, then delegate to
the minter's `VerifyLSAT`; every failure collapses to `false`. -/
def Accept {Mac : Type} (E : MacaroonOps Mac) (M : Minter Mac) (header : Header)
    (serviceName : String) : Bool :=
  match FromHeader E header with
  | .error _ => false
  | .ok (mac, preimage) =>
    match M.verifyLSAT (VerificationParams.mk mac preimage serviceName) with
    | some _ => false
    | none => true

/-- `LsatAuthenticator.FreshChallengeHeader`: mint a macaroon for the
service at the base tier; a mint error is returned as-is.  A macaroon
serialization error is only logged: the byte slice stays `nil` and the
challenge header is still composed and returned with a nil error. -/
def FreshChallengeHeader {Mac : Type} (E : MacaroonOps Mac) (M : Minter Mac)
    (reqHeader : Header) (serviceName : String) : Except String Header :=
  match M.mintLSAT (Service.mk serviceName BaseTier) with
  | .error e => .error e
  | .ok (mac, paymentRequest) =>
    let macBytes :=
      match E.marshalBinary mac with
      | .ok bs => bs
      | .error _ => []
    let str := "LSAT macaroon='" ++ base64EncodeStr macBytes ++ "' invoice='"
      ++ paymentRequest ++ "'"
    .ok (reqHeader.set HeaderWWWAuthenticate str)

/-- `SetHeader`: serialize the macaroon; on error return it with the header
untouched, otherwise write `authFormat = "LSAT %s:%s"` (base64 macaroon,
hex preimage) into the `Authorization` field.  The Go function mutates the
header in place and returns only the error; here the result pairs the
(optional) error with the resulting header. -/
def SetHeader {Mac : Type} (E : MacaroonOps Mac) (header : Header) (mac : Mac)
    (preimage : Preimage) : Option String × Header :=
  match E.marshalBinary mac with
  | .error e => (some e, header)
  | .ok macBytes =>
    (none, header.set HeaderAuthorization
      ("LSAT " ++ base64EncodeStr macBytes ++ ":" ++ hexEncodeStr preimage.bytes))

/-! ## Concrete collaborator instances (used to instantiate theorems)

These model particular behaviours of the external collaborators; the
macaroon type is instantiated with its own byte representation. -/

/-- A macaroon codec whose binary form is the byte list itself and whose
macaroons carry no preimage caveat. -/
def extId : MacaroonOps (List Nat) :=
  MacaroonOps.mk (fun bs => some bs) (fun mac => Except.ok mac) (fun _ => none)

/-- Like `extId` but serialization always fails. -/
def extNoMar : MacaroonOps (List Nat) :=
  MacaroonOps.mk (fun bs => some bs) (fun _ => Except.error "cannot serialize")
    (fun _ => none)

/-- A minter that accepts every credential and mints a fixed macaroon. -/
def minterOk : Minter (List Nat) :=
  Minter.mk (fun _ => none) (fun _ => Except.ok ([1, 2], "lnbc1invoice"))

/-- A minter whose minting always fails. -/
def minterNoMint : Minter (List Nat) :=
  Minter.mk (fun _ => none) (fun _ => Except.error "mint failed")

/-- 64 `a` characters: a well-formed preimage hex segment. -/
def hex64a : String := String.mk (List.replicate 64 'a')

/-- A header carrying only the `Authorization` field. -/
def hdrAuth (v : String) : Header := Header.set Header.empty HeaderAuthorization v

/-- A header carrying only the `Grpc-Metadata-Macaroon` field. -/
def hdrMD (v : String) : Header := Header.set Header.empty HeaderMacaroonMD v

/-- The all-`0xaa` 32-byte preimage. -/
def preA : Preimage := Preimage.mk (List.replicate 32 170)

/-! ## Helper lemmas -/

theorem Header.get_set_self (h : Header) (k v : String) : (h.set k v).get k = v := by
  simp [Header.get, Header.set]

theorem Header.get_set_ne (h : Header) (k k' v : String) (hne : k' ≠ k) :
    (h.set k v).get k' = h.get k' := by
  simp [Header.get, Header.set, hne]

theorem stringMk_data (s : String) : String.mk s.data = s := rfl

theorem b64Val_b64Char : ∀ n : Fin 64, b64Val (b64Char n.val) = some n.val := by decide

theorem b64Char_ne : ∀ n : Fin 64, b64Char n.val ≠ '=' ∧ b64Char n.val ≠ '\n' ∧
    b64Char n.val ≠ '\r' ∧ b64Char n.val ≠ ':' := by decide

theorem hexDigit_hexDigitChar : ∀ n : Fin 16, hexDigit (hexDigitChar n.val) = some n.val := by
  decide

theorem isLowerHex_hexDigitChar : ∀ n : Fin 16, isLowerHex (hexDigitChar n.val) = true := by
  decide

theorem hexDecode_hexEncode : ∀ (bs : List Nat), (∀ b ∈ bs, b < 256) →
    hexDecodeChars (hexEncodeChars bs) = some bs
  | [], _ => rfl
  | b :: rest, h => by
    have hb : b < 256 := h b (List.mem_cons_self _ _)
    have ih := hexDecode_hexEncode rest (fun x hx => h x (List.mem_cons_of_mem _ hx))
    have h1 : b / 16 < 16 := by omega
    have h2 : b % 16 < 16 := by omega
    simp only [hexEncodeChars, hexDecodeChars, hexDigit_hexDigitChar ⟨b / 16, h1⟩,
      hexDigit_hexDigitChar ⟨b % 16, h2⟩, ih]
    congr 1
    congr 1
    omega

theorem hexEncodeChars_length : ∀ (bs : List Nat),
    (hexEncodeChars bs).length = 2 * bs.length
  | [] => rfl
  | _ :: rest => by
    simp [hexEncodeChars, hexEncodeChars_length rest]
    omega

theorem hexEncodeChars_lower : ∀ (bs : List Nat), (∀ b ∈ bs, b < 256) →
    ∀ c ∈ hexEncodeChars bs, isLowerHex c = true
  | [], _, c, hc => by simp [hexEncodeChars] at hc
  | b :: rest, h, c, hc => by
    have hb : b < 256 := h b (List.mem_cons_self _ _)
    have h1 : b / 16 < 16 := by omega
    have h2 : b % 16 < 16 := by omega
    simp only [hexEncodeChars, List.mem_cons] at hc
    rcases hc with rfl | rfl | hc
    · exact isLowerHex_hexDigitChar ⟨b / 16, h1⟩
    · exact isLowerHex_hexDigitChar ⟨b % 16, h2⟩
    · exact hexEncodeChars_lower rest (fun x hx => h x (List.mem_cons_of_mem _ hx)) c hc

theorem b64Decode_b64Encode : ∀ (bs : List Nat), (∀ b ∈ bs, b < 256) →
    b64DecodeChars (base64EncodeChars bs) = some bs
  | [], _ => rfl
  | [a], h => by
    have ha : a < 256 := h a (by simp)
    have h1 : a / 4 < 64 := by omega
    have h2 : a % 4 * 16 < 64 := by omega
    simp only [base64EncodeChars, b64DecodeChars, b64Val_b64Char ⟨a / 4, h1⟩,
      b64Val_b64Char ⟨a % 4 * 16, h2⟩]
    simp
    omega
  | [a, b], h => by
    have ha : a < 256 := h a (by simp)
    have hb : b < 256 := h b (by simp)
    have h1 : a / 4 < 64 := by omega
    have h2 : a % 4 * 16 + b / 16 < 64 := by omega
    have h3 : b % 16 * 4 < 64 := by omega
    have hne3 : b64Char (b % 16 * 4) ≠ '=' := (b64Char_ne ⟨b % 16 * 4, h3⟩).1
    simp only [base64EncodeChars, b64DecodeChars, b64Val_b64Char ⟨a / 4, h1⟩,
      b64Val_b64Char ⟨a % 4 * 16 + b / 16, h2⟩, b64Val_b64Char ⟨b % 16 * 4, h3⟩]
    rw [if_neg (by simp [hne3]), if_pos (by simp)]
    congr 1
    congr 1
    · omega
    · congr 1
      omega
  | a :: b :: c :: rest, h => by
    have ha : a < 256 := h a (by simp)
    have hb : b < 256 := h b (by simp)
    have hc : c < 256 := h c (by simp)
    have ih := b64Decode_b64Encode rest
      (fun x hx => h x (List.mem_cons_of_mem _ (List.mem_cons_of_mem _ (List.mem_cons_of_mem _ hx))))
    have h1 : a / 4 < 64 := by omega
    have h2 : a % 4 * 16 + b / 16 < 64 := by omega
    have h3 : b % 16 * 4 + c / 64 < 64 := by omega
    have h4 : c % 64 < 64 := by omega
    have hne3 : b64Char (b % 16 * 4 + c / 64) ≠ '=' := (b64Char_ne ⟨b % 16 * 4 + c / 64, h3⟩).1
    have hne4 : b64Char (c % 64) ≠ '=' := (b64Char_ne ⟨c % 64, h4⟩).1
    simp only [base64EncodeChars, b64DecodeChars, b64Val_b64Char ⟨a / 4, h1⟩,
      b64Val_b64Char ⟨a % 4 * 16 + b / 16, h2⟩, b64Val_b64Char ⟨b % 16 * 4 + c / 64, h3⟩,
      b64Val_b64Char ⟨c % 64, h4⟩]
    rw [if_neg (by simp [hne3]), if_neg (by simp [hne4]), ih]
    simp only [Option.some.injEq, List.cons.injEq]
    refine ⟨by omega, by omega, by omega, trivial⟩

theorem base64EncodeChars_props : ∀ (bs : List Nat), (∀ b ∈ bs, b < 256) →
    ∀ c ∈ base64EncodeChars bs, c ≠ '\n' ∧ c ≠ '\r' ∧ c ≠ ':'
  | [], _, c, hc => by simp [base64EncodeChars] at hc
  | [a], h, c, hc => by
    have ha : a < 256 := h a (by simp)
    have h1 : a / 4 < 64 := by omega
    have h2 : a % 4 * 16 < 64 := by omega
    simp only [base64EncodeChars, List.mem_cons] at hc
    rcases hc with rfl | rfl | rfl | rfl | hc
    · exact ⟨(b64Char_ne ⟨a / 4, h1⟩).2.1, (b64Char_ne ⟨a / 4, h1⟩).2.2⟩
    · exact ⟨(b64Char_ne ⟨a % 4 * 16, h2⟩).2.1, (b64Char_ne ⟨a % 4 * 16, h2⟩).2.2⟩
    · exact ⟨by decide, by decide, by decide⟩
    · exact ⟨by decide, by decide, by decide⟩
    · simp at hc
  | [a, b], h, c, hc => by
    have ha : a < 256 := h a (by simp)
    have hb : b < 256 := h b (by simp)
    have h1 : a / 4 < 64 := by omega
    have h2 : a % 4 * 16 + b / 16 < 64 := by omega
    have h3 : b % 16 * 4 < 64 := by omega
    simp only [base64EncodeChars, List.mem_cons] at hc
    rcases hc with rfl | rfl | rfl | rfl | hc
    · exact ⟨(b64Char_ne ⟨a / 4, h1⟩).2.1, (b64Char_ne ⟨a / 4, h1⟩).2.2⟩
    · exact ⟨(b64Char_ne ⟨a % 4 * 16 + b / 16, h2⟩).2.1,
        (b64Char_ne ⟨a % 4 * 16 + b / 16, h2⟩).2.2⟩
    · exact ⟨(b64Char_ne ⟨b % 16 * 4, h3⟩).2.1, (b64Char_ne ⟨b % 16 * 4, h3⟩).2.2⟩
    · exact ⟨by decide, by decide, by decide⟩
    · simp at hc
  | a :: b :: c0 :: rest, h, c, hc => by
    have ha : a < 256 := h a (by simp)
    have hb : b < 256 := h b (by simp)
    have hc0 : c0 < 256 := h c0 (by simp)
    have h1 : a / 4 < 64 := by omega
    have h2 : a % 4 * 16 + b / 16 < 64 := by omega
    have h3 : b % 16 * 4 + c0 / 64 < 64 := by omega
    have h4 : c0 % 64 < 64 := by omega
    simp only [base64EncodeChars, List.mem_cons] at hc
    rcases hc with rfl | rfl | rfl | rfl | hc
    · exact ⟨(b64Char_ne ⟨a / 4, h1⟩).2.1, (b64Char_ne ⟨a / 4, h1⟩).2.2⟩
    · exact ⟨(b64Char_ne ⟨a % 4 * 16 + b / 16, h2⟩).2.1,
        (b64Char_ne ⟨a % 4 * 16 + b / 16, h2⟩).2.2⟩
    · exact ⟨(b64Char_ne ⟨b % 16 * 4 + c0 / 64, h3⟩).2.1,
        (b64Char_ne ⟨b % 16 * 4 + c0 / 64, h3⟩).2.2⟩
    · exact ⟨(b64Char_ne ⟨c0 % 64, h4⟩).2.1, (b64Char_ne ⟨c0 % 64, h4⟩).2.2⟩
    · exact base64EncodeChars_props rest
        (fun x hx => h x (List.mem_cons_of_mem _ (List.mem_cons_of_mem _ (List.mem_cons_of_mem _ hx))))
        c hc

theorem readColonHex64_cons_ne (c : Char) (l : List Char) (hc : c ≠ ':') :
    readColonHex64 (c :: l) = none := by
  unfold readColonHex64
  split
  · next h => exact absurd (List.head_eq_of_cons_eq h.symm).symm hc
  · rfl

theorem readColonHex64_hex (hex post : List Char) (hlen : hex.length = 64)
    (hlow : hex.all isLowerHex = true) :
    readColonHex64 (':' :: (hex ++ post)) = some hex := by
  have htake : (hex ++ post).take 64 = hex := by
    rw [← hlen, List.take_left]
  unfold readColonHex64
  simp [htake, hlen, hlow]

theorem findLazy_eq : ∀ (pre : List Char) (hex post : List Char),
    (∀ c ∈ pre, c ≠ ':' ∧ c ≠ '\n') → hex.length = 64 → hex.all isLowerHex = true →
    findLazy (pre ++ ':' :: (hex ++ post)) = some (pre, hex)
  | [], hex, post, _, hlen, hlow => by
    rw [List.nil_append]
    unfold findLazy
    rw [readColonHex64_hex hex post hlen hlow]
  | c :: pre, hex, post, hpre, hlen, hlow => by
    have hc : c ≠ ':' ∧ c ≠ '\n' := hpre c (List.mem_cons_self _ _)
    have ih := findLazy_eq pre hex post (fun x hx => hpre x (List.mem_cons_of_mem _ hx))
      hlen hlow
    rw [List.cons_append]
    unfold findLazy
    rw [readColonHex64_cons_ne c _ hc.1, if_neg hc.2, ih]

theorem authRegexFindChars_at_start (after : List Char) (r : List Char × List Char)
    (h : findLazy after = some r) :
    authRegexFindChars ('L' :: 'S' :: 'A' :: 'T' :: ' ' :: after) = some r := by
  unfold authRegexFindChars tryMatchAt
  simp [h]

theorem authValue_data (x y : String) :
    ("LSAT " ++ x ++ ":" ++ y).data =
      'L' :: 'S' :: 'A' :: 'T' :: ' ' :: (x.data ++ ':' :: y.data) := by
  simp [String.data_append]

theorem string_ne_empty_of_data_cons {s : String} {c : Char} {l : List Char}
    (h : s.data = c :: l) : s ≠ "" := by
  intro he
  rw [he] at h
  exact List.cons_ne_nil _ _ h.symm

theorem FromHeader_auth_eq {Mac : Type} (E : MacaroonOps Mac) (hdr : Header)
    (hne : hdr.get HeaderAuthorization ≠ "") :
    FromHeader E hdr =
      match authRegexFindChars (hdr.get HeaderAuthorization).data with
      | none => .error .invalidAuthFormat
      | some (macBase64, preimageHex) =>
        match base64DecodeStr (String.mk macBase64) with
        | none => .error .base64DecodeFailed
        | some macBytes =>
          match E.unmarshalBinary macBytes with
          | none => .error .unmarshalFailed
          | some mac =>
            match makePreimageFromStr (String.mk preimageHex) with
            | none => .error .preimageHexFailed
            | some preimage => .ok (mac, preimage) := by
  unfold FromHeader
  rw [if_pos hne]

theorem FromHeader_md_eq {Mac : Type} (E : MacaroonOps Mac) (hdr : Header)
    (ha : hdr.get HeaderAuthorization = "") (hmd : hdr.get HeaderMacaroonMD ≠ "") :
    FromHeader E hdr = decodeMacaroonOnly E (hdr.get HeaderMacaroonMD) := by
  unfold FromHeader
  rw [if_neg (by simp [ha]), if_pos hmd]

theorem FromHeader_mac_eq {Mac : Type} (E : MacaroonOps Mac) (hdr : Header)
    (ha : hdr.get HeaderAuthorization = "") (hmd : hdr.get HeaderMacaroonMD = "")
    (hm : hdr.get HeaderMacaroon ≠ "") :
    FromHeader E hdr = decodeMacaroonOnly E (hdr.get HeaderMacaroon) := by
  unfold FromHeader
  rw [if_neg (by simp [ha]), if_neg (by simp [hmd]), if_pos hm]

theorem FromHeader_none_eq {Mac : Type} (E : MacaroonOps Mac) (hdr : Header)
    (ha : hdr.get HeaderAuthorization = "") (hmd : hdr.get HeaderMacaroonMD = "")
    (hm : hdr.get HeaderMacaroon = "") :
    FromHeader E hdr = .error .noAuthHeader := by
  unfold FromHeader
  rw [if_neg (by simp [ha]), if_neg (by simp [hmd]), if_neg (by simp [hm])]

/-! ## Claim theorems -/

/-- C6: when none of the three header fields `Authorization`,
`Grpc-Metadata-Macaroon`, `Macaroon` is non-empty, `FromHeader` fails with
the no-credential error and `Accept` returns `false` for every minter and
service name. -/
theorem fromHeader_no_credential {Mac : Type} (E : MacaroonOps Mac) (hdr : Header)
    (ha : hdr.get HeaderAuthorization = "") (hmd : hdr.get HeaderMacaroonMD = "")
    (hm : hdr.get HeaderMacaroon = "") :
    FromHeader E hdr = .error .noAuthHeader ∧
    ∀ (M : Minter Mac) (serviceName : String), Accept E M hdr serviceName = false := by
  have h := FromHeader_none_eq E hdr ha hmd hm
  refine ⟨h, fun M serviceName => ?_⟩
  unfold Accept
  rw [h]

/-- Witness for C6 at the empty header. -/
theorem fromHeader_no_credential_witness :
    FromHeader extId Header.empty = .error .noAuthHeader ∧
    Accept extId minterOk Header.empty "service" = false :=
  ⟨(fromHeader_no_credential extId Header.empty rfl rfl rfl).1,
   (fromHeader_no_credential extId Header.empty rfl rfl rfl).2 minterOk "service"⟩

/-- C3: `Accept` is a total boolean function: it is `true` exactly when
`FromHeader` succeeds and the minter's `VerifyLSAT` on the bundled
verification parameters returns a nil error, and `false` exactly when
decoding fails or verification returns a non-nil error. -/
theorem accept_boolean_contract {Mac : Type} (E : MacaroonOps Mac) (M : Minter Mac)
    (hdr : Header) (serviceName : String) :
    (Accept E M hdr serviceName = true ↔
      ∃ mac preimage, FromHeader E hdr = .ok (mac, preimage) ∧
        M.verifyLSAT (VerificationParams.mk mac preimage serviceName) = none) ∧
    (Accept E M hdr serviceName = false ↔
      (∃ e, FromHeader E hdr = .error e) ∨
      ∃ mac preimage msg, FromHeader E hdr = .ok (mac, preimage) ∧
        M.verifyLSAT (VerificationParams.mk mac preimage serviceName) = some msg) := by
  rcases hF : FromHeader E hdr with e | ⟨mac, preimage⟩
  · constructor
    · simp [Accept, hF]
    · simp [Accept, hF]
  · rcases hV : M.verifyLSAT (VerificationParams.mk mac preimage serviceName) with _ | msg
    · constructor
      · constructor
        · intro _
          exact ⟨mac, preimage, rfl, hV⟩
        · intro _
          simp [Accept, hF, hV]
      · constructor
        · intro h
          simp [Accept, hF, hV] at h
        · intro h
          rcases h with ⟨e, he⟩ | ⟨m1, p1, s, hok, hsome⟩
          · exact Except.noConfusion he
          · injection hok with hok
            injection hok with h1 h2
            rw [← h1, ← h2, hV] at hsome
            exact Option.noConfusion hsome
    · constructor
      · constructor
        · intro h
          simp [Accept, hF, hV] at h
        · intro h
          rcases h with ⟨m1, p1, hok, hnone⟩
          injection hok with hok
          injection hok with h1 h2
          rw [← h1, ← h2, hV] at hnone
          exact Option.noConfusion hnone
      · constructor
        · intro _
          exact Or.inr ⟨mac, preimage, msg, rfl, hV⟩
        · intro _
          simp [Accept, hF, hV]

/-- C7: `SetHeader` fails exactly on a macaroon serialization error,
leaving the header unmodified in that case; otherwise it succeeds and
writes the layout-1 `authFormat` value into the `Authorization` field. -/
theorem setHeader_contract {Mac : Type} (E : MacaroonOps Mac) (hdr : Header) (mac : Mac)
    (preimage : Preimage) :
    (∀ e, E.marshalBinary mac = .error e →
      SetHeader E hdr mac preimage = (some e, hdr)) ∧
    (∀ macBytes, E.marshalBinary mac = .ok macBytes →
      SetHeader E hdr mac preimage =
        (none, hdr.set HeaderAuthorization
          ("LSAT " ++ base64EncodeStr macBytes ++ ":" ++ hexEncodeStr preimage.bytes))) := by
  constructor
  · intro e he
    unfold SetHeader
    rw [he]
  · intro macBytes hb
    unfold SetHeader
    rw [hb]

/-- Witness for C7: both branches at concrete macaroon codecs. -/
theorem setHeader_contract_witness :
    SetHeader extNoMar Header.empty [1] preA = (some "cannot serialize", Header.empty) ∧
    SetHeader extId Header.empty [1] preA =
      (none, Header.set Header.empty HeaderAuthorization
        ("LSAT " ++ base64EncodeStr [1] ++ ":" ++ hexEncodeStr preA.bytes)) :=
  ⟨(setHeader_contract extNoMar Header.empty [1] preA).1 "cannot serialize" rfl,
   (setHeader_contract extId Header.empty [1] preA).2 [1] rfl⟩

/-- C8: `FreshChallengeHeader` propagates a minting failure as an error with
no header, while a serialization failure of the minted macaroon does not
abort: the challenge header is still returned with a nil error and an empty
macaroon segment (`base64EncodeStr [] = ""`). -/
theorem freshChallenge_failure_modes {Mac : Type} (E : MacaroonOps Mac) (M : Minter Mac)
    (hdr : Header) (serviceName : String) :
    (∀ e, M.mintLSAT (Service.mk serviceName BaseTier) = .error e →
      FreshChallengeHeader E M hdr serviceName = .error e) ∧
    (∀ mac invoice e, M.mintLSAT (Service.mk serviceName BaseTier) = .ok (mac, invoice) →
      E.marshalBinary mac = .error e →
      FreshChallengeHeader E M hdr serviceName =
        .ok (hdr.set HeaderWWWAuthenticate
          ("LSAT macaroon='" ++ base64EncodeStr [] ++ "' invoice='" ++ invoice ++ "'"))) ∧
    base64EncodeStr [] = "" := by
  refine ⟨?_, ?_, rfl⟩
  · intro e he
    unfold FreshChallengeHeader
    rw [he]
  · intro mac invoice e hmint hmar
    simp only [FreshChallengeHeader, hmint, hmar]

/-- Witness for C8: a failing minter propagates its error; a failing
serializer still yields a challenge header. -/
theorem freshChallenge_failure_modes_witness :
    FreshChallengeHeader extId minterNoMint Header.empty "svc" = .error "mint failed" ∧
    FreshChallengeHeader extNoMar minterOk Header.empty "svc" =
      .ok (Header.set Header.empty HeaderWWWAuthenticate
        ("LSAT macaroon='" ++ base64EncodeStr [] ++ "' invoice='" ++ "lnbc1invoice" ++ "'")) :=
  ⟨(freshChallenge_failure_modes extId minterNoMint Header.empty "svc").1 "mint failed" rfl,
   (freshChallenge_failure_modes extNoMar minterOk Header.empty "svc").2.1
     [1, 2] "lnbc1invoice" "cannot serialize" rfl rfl⟩

/-- C9: on success, `FreshChallengeHeader` mints for the `Service`
descriptor named `serviceName` at `BaseTier` and sets `WWW-Authenticate`
to exactly the challenge format built from the base64 canonical macaroon
bytes and the minter's payment request. -/
theorem freshChallenge_success_format {Mac : Type} (E : MacaroonOps Mac) (M : Minter Mac)
    (hdr : Header) (serviceName : String) (mac : Mac) (invoice : String)
    (macBytes : List Nat)
    (hmint : M.mintLSAT (Service.mk serviceName BaseTier) = .ok (mac, invoice))
    (hmar : E.marshalBinary mac = .ok macBytes) :
    FreshChallengeHeader E M hdr serviceName =
      .ok (hdr.set HeaderWWWAuthenticate
        ("LSAT macaroon='" ++ base64EncodeStr macBytes ++ "' invoice='" ++ invoice ++ "'")) := by
  simp only [FreshChallengeHeader, hmint, hmar]

/-- Witness for C9 at a concrete minter and codec. -/
theorem freshChallenge_success_format_witness :
    FreshChallengeHeader extId minterOk Header.empty "svc" =
      .ok (Header.set Header.empty HeaderWWWAuthenticate
        ("LSAT macaroon='" ++ base64EncodeStr [1, 2] ++ "' invoice='" ++ "lnbc1invoice" ++ "'")) :=
  freshChallenge_success_format extId minterOk Header.empty "svc" [1, 2] "lnbc1invoice"
    [1, 2] rfl rfl

/-- C10: on success, the returned headers are the request's own headers
with exactly the `WWW-Authenticate` field set (overwriting any previous
value) and every other field unchanged. -/
theorem freshChallenge_frame {Mac : Type} (E : MacaroonOps Mac) (M : Minter Mac)
    (hdr : Header) (serviceName : String) (h' : Header)
    (hok : FreshChallengeHeader E M hdr serviceName = .ok h') :
    (∃ s, h' = hdr.set HeaderWWWAuthenticate s) ∧
    (∀ k, k ≠ HeaderWWWAuthenticate → h'.get k = hdr.get k) := by
  unfold FreshChallengeHeader at hok
  rcases hmint : M.mintLSAT (Service.mk serviceName BaseTier) with e | ⟨mac, invoice⟩
  · rw [hmint] at hok
    exact Except.noConfusion hok
  · rw [hmint] at hok
    injection hok with hok
    refine ⟨⟨_, hok.symm⟩, fun k hk => ?_⟩
    rw [← hok]
    exact Header.get_set_ne hdr HeaderWWWAuthenticate k _ hk

/-- Witness for C10: at a concrete minter, a pre-existing field survives
and the result is an update of the request's own headers. -/
theorem freshChallenge_frame_witness :
    (∃ s, Header.set Header.empty HeaderWWWAuthenticate
        ("LSAT macaroon='" ++ base64EncodeStr [1, 2] ++ "' invoice='" ++ "lnbc1invoice" ++ "'") =
      Header.set Header.empty HeaderWWWAuthenticate s) ∧
    Header.get (Header.set Header.empty HeaderWWWAuthenticate
        ("LSAT macaroon='" ++ base64EncodeStr [1, 2] ++ "' invoice='" ++ "lnbc1invoice" ++ "'"))
      HeaderAuthorization = Header.get Header.empty HeaderAuthorization :=
  ⟨(freshChallenge_frame extId minterOk Header.empty "svc" _ rfl).1,
   (freshChallenge_frame extId minterOk Header.empty "svc" _ rfl).2
     HeaderAuthorization (by decide)⟩

/-- C2: `FromHeader` tries the fields in the fixed order `Authorization`,
`Grpc-Metadata-Macaroon`, `Macaroon`; when `Authorization` is non-empty the
result depends only on that field (so a malformed value fails regardless of
the other two fields), and otherwise the next non-empty field alone is
decoded. -/
theorem fromHeader_priority_order {Mac : Type} (E : MacaroonOps Mac) (hdr hdr' : Header) :
    (hdr.get HeaderAuthorization ≠ "" →
      hdr'.get HeaderAuthorization = hdr.get HeaderAuthorization →
      FromHeader E hdr' = FromHeader E hdr) ∧
    (hdr.get HeaderAuthorization ≠ "" →
      authRegexFindChars (hdr.get HeaderAuthorization).data = none →
      FromHeader E hdr = .error .invalidAuthFormat) ∧
    (hdr.get HeaderAuthorization = "" → hdr.get HeaderMacaroonMD ≠ "" →
      FromHeader E hdr = decodeMacaroonOnly E (hdr.get HeaderMacaroonMD)) ∧
    (hdr.get HeaderAuthorization = "" → hdr.get HeaderMacaroonMD = "" →
      hdr.get HeaderMacaroon ≠ "" →
      FromHeader E hdr = decodeMacaroonOnly E (hdr.get HeaderMacaroon)) := by
  refine ⟨?_, ?_, FromHeader_md_eq E hdr, FromHeader_mac_eq E hdr⟩
  · intro hne heq
    rw [FromHeader_auth_eq E hdr hne, FromHeader_auth_eq E hdr' (by rw [heq]; exact hne), heq]
  · intro hne hnone
    rw [FromHeader_auth_eq E hdr hne, hnone]

/-- Witness for C2: a malformed `Authorization` value gives the same
format failure whether or not a valid hex macaroon sits in
`Grpc-Metadata-Macaroon`, and the two macaroon-only fields are selected in
order when `Authorization` is absent. -/
theorem fromHeader_priority_order_witness :
    FromHeader extId (Header.set (hdrMD "ff") HeaderAuthorization "LSAT x") =
      FromHeader extId (hdrAuth "LSAT x") ∧
    FromHeader extId (hdrAuth "LSAT x") = .error .invalidAuthFormat ∧
    FromHeader extId (hdrMD "ff") = decodeMacaroonOnly extId "ff" ∧
    FromHeader extId (Header.set Header.empty HeaderMacaroon "ff") =
      decodeMacaroonOnly extId "ff" :=
  ⟨(fromHeader_priority_order extId (hdrAuth "LSAT x")
      (Header.set (hdrMD "ff") HeaderAuthorization "LSAT x")).1 (by decide) (by decide),
   (fromHeader_priority_order extId (hdrAuth "LSAT x") Header.empty).2.1
      (by decide) (by decide),
   (fromHeader_priority_order extId (hdrMD "ff") Header.empty).2.2.1 rfl (by decide),
   (fromHeader_priority_order extId (Header.set Header.empty HeaderMacaroon "ff")
      Header.empty).2.2.2 rfl rfl (by decide)⟩

theorem decodeMacaroonOnly_ok_iff {Mac : Type} (E : MacaroonOps Mac) (v : String)
    (mac : Mac) (preimage : Preimage) :
    decodeMacaroonOnly E v = .ok (mac, preimage) ↔
      ∃ macBytes preimageHex, hexDecodeChars v.data = some macBytes ∧
        E.unmarshalBinary macBytes = some mac ∧
        E.extractCaveat mac = some preimageHex ∧
        makePreimageFromStr preimageHex = some preimage := by
  constructor
  · intro h
    unfold decodeMacaroonOnly at h
    rcases hx : hexDecodeChars v.data with _ | macBytes
    · simp only [hx] at h
      exact Except.noConfusion h
    · simp only [hx] at h
      rcases hu : E.unmarshalBinary macBytes with _ | mac1
      · simp only [hu] at h
        exact Except.noConfusion h
      · simp only [hu] at h
        rcases hc : E.extractCaveat mac1 with _ | s
        · simp only [hc] at h
          exact Except.noConfusion h
        · simp only [hc] at h
          rcases hm : makePreimageFromStr s with _ | p
          · simp only [hm] at h
            exact Except.noConfusion h
          · simp only [hm, Except.ok.injEq, Prod.mk.injEq] at h
            obtain ⟨hmac, hpre⟩ := h
            subst hmac
            subst hpre
            exact ⟨macBytes, s, rfl, hu, hc, hm⟩
  · intro h
    obtain ⟨bs, s, hx, hu, hc, hm⟩ := h
    simp only [decodeMacaroonOnly, hx, hu, hc, hm]

theorem decodeMacaroonOnly_missingCaveat {Mac : Type} (E : MacaroonOps Mac) (v : String)
    (macBytes : List Nat) (mac : Mac) (h1 : hexDecodeChars v.data = some macBytes)
    (h2 : E.unmarshalBinary macBytes = some mac) (h3 : E.extractCaveat mac = none) :
    decodeMacaroonOnly E v = .error .missingCaveat := by
  simp only [decodeMacaroonOnly, h1, h2, h3]

/-- C5: when `Authorization` is empty and `Grpc-Metadata-Macaroon` (or,
failing that, `Macaroon`) is non-empty, `FromHeader` hex-decodes that
single field, unmarshals the macaroon, extracts the preimage caveat and
hex-decodes its value into a 32-byte preimage; a macaroon without the
caveat yields the missing-caveat decode failure and `Accept` denies for
every minter. -/
theorem fromHeader_macaroon_only_layouts {Mac : Type} (E : MacaroonOps Mac) (hdr : Header)
    (v : String) (ha : hdr.get HeaderAuthorization = "")
    (hv : v = hdr.get HeaderMacaroonMD ∧ v ≠ "" ∨
          hdr.get HeaderMacaroonMD = "" ∧ v = hdr.get HeaderMacaroon ∧ v ≠ "") :
    FromHeader E hdr = decodeMacaroonOnly E v ∧
    (∀ mac preimage, FromHeader E hdr = .ok (mac, preimage) ↔
      ∃ macBytes preimageHex, hexDecodeChars v.data = some macBytes ∧
        E.unmarshalBinary macBytes = some mac ∧
        E.extractCaveat mac = some preimageHex ∧
        makePreimageFromStr preimageHex = some preimage) ∧
    (∀ macBytes mac, hexDecodeChars v.data = some macBytes →
      E.unmarshalBinary macBytes = some mac → E.extractCaveat mac = none →
      FromHeader E hdr = .error .missingCaveat ∧
      ∀ (M : Minter Mac) (serviceName : String), Accept E M hdr serviceName = false) := by
  have h0 : FromHeader E hdr = decodeMacaroonOnly E v := by
    rcases hv with ⟨hveq, hne⟩ | ⟨hmd, hveq, hne⟩
    · rw [hveq]
      exact FromHeader_md_eq E hdr ha (by rw [← hveq]; exact hne)
    · rw [hveq]
      exact FromHeader_mac_eq E hdr ha hmd (by rw [← hveq]; exact hne)
  refine ⟨h0, fun mac preimage => ?_, fun macBytes mac h1 h2 h3 => ?_⟩
  · rw [h0]
    exact decodeMacaroonOnly_ok_iff E v mac preimage
  · have herr : FromHeader E hdr = .error .missingCaveat := by
      rw [h0]
      exact decodeMacaroonOnly_missingCaveat E v macBytes mac h1 h2 h3
    refine ⟨herr, fun M serviceName => ?_⟩
    unfold Accept
    rw [herr]

/-- Witness for C5: a hex macaroon in `Grpc-Metadata-Macaroon` whose
macaroon has no preimage caveat gives the missing-caveat failure and a
denied request. -/
theorem fromHeader_macaroon_only_layouts_witness :
    FromHeader extId (hdrMD "ff") = .error .missingCaveat ∧
    Accept extId minterOk (hdrMD "ff") "svc" = false :=
  ⟨((fromHeader_macaroon_only_layouts extId (hdrMD "ff") "ff" rfl
      (Or.inl ⟨rfl, by decide⟩)).2.2 [255] [255] (by decide) rfl rfl).1,
   ((fromHeader_macaroon_only_layouts extId (hdrMD "ff") "ff" rfl
      (Or.inl ⟨rfl, by decide⟩)).2.2 [255] [255] (by decide) rfl rfl).2 minterOk "svc"⟩

theorem readColonHex64_sound {l hx : List Char} (hr : readColonHex64 l = some hx) :
    hx.length = 64 ∧ hx.all isLowerHex = true := by
  unfold readColonHex64 at hr
  split at hr
  · split at hr
    · rename_i hcond
      injection hr with hr
      rw [← hr]
      exact ⟨hcond.1, hcond.2⟩
    · exact Option.noConfusion hr
  · exact Option.noConfusion hr

theorem findLazy_sound : ∀ (l : List Char) {g1 hx : List Char},
    findLazy l = some (g1, hx) → hx.length = 64 ∧ hx.all isLowerHex = true
  | [], _, _, h => Option.noConfusion h
  | c :: rest, g1, hx, h => by
    unfold findLazy at h
    rcases hr : readColonHex64 (c :: rest) with _ | h2
    · simp only [hr] at h
      split at h
      · exact Option.noConfusion h
      · rcases hf : findLazy rest with _ | ⟨g1x, hxx⟩
        · simp only [hf] at h
          exact Option.noConfusion h
        · simp only [hf, Option.some.injEq, Prod.mk.injEq] at h
          obtain ⟨hg, hh⟩ := h
          rw [← hh]
          exact findLazy_sound rest hf
    · simp only [hr, Option.some.injEq, Prod.mk.injEq] at h
      obtain ⟨hg, hh⟩ := h
      rw [← hh]
      exact readColonHex64_sound hr

theorem authRegexFindChars_sound : ∀ (l : List Char) {g1 hx : List Char},
    authRegexFindChars l = some (g1, hx) → hx.length = 64 ∧ hx.all isLowerHex = true
  | [], _, _, h => Option.noConfusion h
  | c :: rest, g1, hx, h => by
    unfold authRegexFindChars at h
    rcases ht : tryMatchAt (c :: rest) with _ | r
    · simp only [ht] at h
      exact authRegexFindChars_sound rest h
    · simp only [ht, Option.some.injEq] at h
      subst h
      unfold tryMatchAt at ht
      split at ht
      · exact findLazy_sound _ ht
      · exact Option.noConfusion ht

/-- C1 (amended): `FromHeader` in layout 1 gates on an unanchored regex
search: it fails with a format error exactly when the `Authorization`
value contains no substring `LSAT <non-newline chars>:<64 lower-case hex>`,
and on success the preimage comes from the 64 lower-case hex characters of
the leftmost-shortest such match — extra surrounding or trailing
characters are not rejected. -/
theorem authHeader_regex_gate {Mac : Type} (E : MacaroonOps Mac) (hdr : Header)
    (hne : hdr.get HeaderAuthorization ≠ "") :
    (authRegexFindChars (hdr.get HeaderAuthorization).data = none →
      FromHeader E hdr = .error .invalidAuthFormat) ∧
    (∀ mac preimage, FromHeader E hdr = .ok (mac, preimage) →
      ∃ g1 g2, authRegexFindChars (hdr.get HeaderAuthorization).data = some (g1, g2) ∧
        g2.length = 64 ∧ g2.all isLowerHex = true ∧
        makePreimageFromStr (String.mk g2) = some preimage ∧
        ∃ macBytes, base64DecodeStr (String.mk g1) = some macBytes ∧
          E.unmarshalBinary macBytes = some mac) := by
  constructor
  · intro hnone
    rw [FromHeader_auth_eq E hdr hne, hnone]
  · intro mac preimage hok
    rw [FromHeader_auth_eq E hdr hne] at hok
    rcases hr : authRegexFindChars (hdr.get HeaderAuthorization).data with _ | ⟨g1, g2⟩
    · simp only [hr] at hok
      exact Except.noConfusion hok
    · simp only [hr] at hok
      rcases hb : base64DecodeStr (String.mk g1) with _ | macBytes
      · simp only [hb] at hok
        exact Except.noConfusion hok
      · simp only [hb] at hok
        rcases hu : E.unmarshalBinary macBytes with _ | mac1
        · simp only [hu] at hok
          exact Except.noConfusion hok
        · simp only [hu] at hok
          rcases hm : makePreimageFromStr (String.mk g2) with _ | p
          · simp only [hm] at hok
            exact Except.noConfusion hok
          · simp only [hm, Except.ok.injEq, Prod.mk.injEq] at hok
            obtain ⟨h1, h2⟩ := hok
            subst h1
            subst h2
            obtain ⟨hlen, hlow⟩ := authRegexFindChars_sound _ hr
            exact ⟨g1, g2, rfl, hlen, hlow, hm, macBytes, hb, hu⟩

/-- Witness for C1 (amended): a present `Authorization` value containing no
matching substring is rejected with the format error. -/
theorem authHeader_regex_gate_witness :
    FromHeader extId (hdrAuth "LSAT x") = .error DecodeErr.invalidAuthFormat :=
  (authHeader_regex_gate extId (hdrAuth "LSAT x") (by decide)).1 (by decide)

/-- Counterexample to C1 as stated: the claim requires any `Authorization`
value with extra surrounding characters (here a trailing `zz` after the
64-character preimage segment) to be rejected as a format error, but the
unanchored `authRegex` still matches and `FromHeader` succeeds, returning
the base64-decoded macaroon bytes and the preimage of the first 64 hex
characters. -/
theorem authHeader_exact_pattern_cex :
    FromHeader extId (hdrAuth ("LSAT QQ==:" ++ hex64a ++ "zz")) = .ok ([65], preA) := rfl

/-- C4: round-trip — for a macaroon that serializes to its canonical
binary form and deserializes back to itself, and a 32-byte preimage,
`SetHeader` succeeds and `FromHeader` on the resulting header returns the
original pair. -/
theorem setHeader_fromHeader_roundtrip {Mac : Type} (E : MacaroonOps Mac) (hdr : Header)
    (mac : Mac) (preimage : Preimage) (macBytes : List Nat)
    (hmar : E.marshalBinary mac = .ok macBytes)
    (hbytes : ∀ b ∈ macBytes, b < 256)
    (hun : E.unmarshalBinary macBytes = some mac)
    (hlen : preimage.bytes.length = 32)
    (hpb : ∀ b ∈ preimage.bytes, b < 256) :
    (SetHeader E hdr mac preimage).1 = none ∧
    FromHeader E (SetHeader E hdr mac preimage).2 = .ok (mac, preimage) := by
  have hset : SetHeader E hdr mac preimage =
      (none, hdr.set HeaderAuthorization
        ("LSAT " ++ base64EncodeStr macBytes ++ ":" ++ hexEncodeStr preimage.bytes)) := by
    unfold SetHeader
    rw [hmar]
  refine ⟨by rw [hset], ?_⟩
  have hget : ((SetHeader E hdr mac preimage).2).get HeaderAuthorization =
      "LSAT " ++ base64EncodeStr macBytes ++ ":" ++ hexEncodeStr preimage.bytes := by
    rw [hset]
    exact Header.get_set_self hdr HeaderAuthorization _
  have hdata : ("LSAT " ++ base64EncodeStr macBytes ++ ":" ++ hexEncodeStr preimage.bytes).data =
      'L' :: 'S' :: 'A' :: 'T' :: ' ' ::
        (base64EncodeChars macBytes ++ ':' :: hexEncodeChars preimage.bytes) :=
    authValue_data (base64EncodeStr macBytes) (hexEncodeStr preimage.bytes)
  have hne : ((SetHeader E hdr mac preimage).2).get HeaderAuthorization ≠ "" := by
    rw [hget]
    exact string_ne_empty_of_data_cons hdata
  have hprops := base64EncodeChars_props macBytes hbytes
  have hpre : ∀ c ∈ base64EncodeChars macBytes, c ≠ ':' ∧ c ≠ '\n' :=
    fun c hc => ⟨(hprops c hc).2.2, (hprops c hc).1⟩
  have hhexlen : (hexEncodeChars preimage.bytes).length = 64 := by
    rw [hexEncodeChars_length, hlen]
  have hhexlow : (hexEncodeChars preimage.bytes).all isLowerHex = true := by
    rw [List.all_eq_true]
    intro c hc
    exact hexEncodeChars_lower preimage.bytes hpb c hc
  have hfind := findLazy_eq (base64EncodeChars macBytes) (hexEncodeChars preimage.bytes) []
    hpre hhexlen hhexlow
  rw [List.append_nil] at hfind
  have hregex : authRegexFindChars
      ("LSAT " ++ base64EncodeStr macBytes ++ ":" ++ hexEncodeStr preimage.bytes).data =
      some (base64EncodeChars macBytes, hexEncodeChars preimage.bytes) := by
    rw [hdata]
    exact authRegexFindChars_at_start _ _ hfind
  have hfilter : (base64EncodeChars macBytes).filter (fun c => (c != '\n') && (c != '\r')) =
      base64EncodeChars macBytes := by
    rw [List.filter_eq_self]
    intro c hc
    have hp := hprops c hc
    simp [hp.1, hp.2.1]
  have hb64 : base64DecodeStr (String.mk (base64EncodeChars macBytes)) = some macBytes := by
    unfold base64DecodeStr
    rw [show (String.mk (base64EncodeChars macBytes)).data = base64EncodeChars macBytes from rfl]
    rw [hfilter]
    exact b64Decode_b64Encode macBytes hbytes
  have hmk : makePreimageFromStr (String.mk (hexEncodeChars preimage.bytes)) = some preimage := by
    simp only [makePreimageFromStr,
      show (String.mk (hexEncodeChars preimage.bytes)).data = hexEncodeChars preimage.bytes
        from rfl,
      hexDecode_hexEncode preimage.bytes hpb, hlen]
    rfl
  rw [FromHeader_auth_eq E _ hne, hget]
  simp only [hregex, hb64, hun, hmk]

/-- Witness for C4 at a concrete 3-byte macaroon and the all-`0xaa`
preimage. -/
theorem setHeader_fromHeader_roundtrip_witness :
    (SetHeader extId Header.empty [1, 2, 3] preA).1 = none ∧
    FromHeader extId (SetHeader extId Header.empty [1, 2, 3] preA).2 =
      .ok ([1, 2, 3], preA) :=
  setHeader_fromHeader_roundtrip extId Header.empty [1, 2, 3] preA [1, 2, 3] rfl
    (by decide) rfl (by decide) (by decide)
